import Mathlib

/-!
Verification of the hourly backtesting engine (`Local Strategy Backtester.py`).

The file embeds the two versions of `run_backtest`'s simulation loop and the
performance-metric block as pure Lean functions over `ℚ` (the Python source
uses IEEE doubles; we use exact rationals, so every stated equality is exact).
A missing price (pandas `NaN`, or an absent `close_<sym>_1H` column) is
modelled as `Option.none`.  Division in `ℚ` returns 0 on a zero denominator;
all theorems that depend on a division carry the positivity hypotheses that
hold on the execution paths of the source (positive prices, positive
portfolio values).
-/

/-- Trading signal token, `signal ∈ {BUY, SELL, HOLD}` in the source. -/
inductive Signal where
  | BUY : Signal
  | SELL : Signal
  | HOLD : Signal
deriving DecidableEq, Repr

/-- Per-symbol position state, the `{'shares': …, 'avg_cost': …}` dict of the source. -/
structure Position where
  shares : ℚ
  avg_cost : ℚ
deriving DecidableEq, Repr

/-- One appended trade-log dict: `{'type', 'symbol', 'price', 'pnl'}`. -/
structure TradeLogEntry where
  type : Signal
  symbol : String
  price : ℚ
  pnl : ℚ
deriving DecidableEq, Repr

/-- One row of `sim_df`: the signal event merged with the per-symbol close
prices at that row's timestamp.  `prices sym` is the value of column
`close_<sym>_1H` in this row, `none` when the column is absent or the cell
is `NaN`. -/
structure SimRow where
  timestamp : ℤ
  symbol : String
  signal : Signal
  position_size : ℚ
  prices : String → Option ℚ

/-- Simulator state of the second (`v2`) version of `run_backtest`. -/
structure StateV2 where
  cash : ℚ
  positions : List (String × Position)
  portfolio_history : List ℚ
  trade_log : List TradeLogEntry

/-- Simulator state of the first (`v1`) version of `run_backtest` (no trade log). -/
structure StateV1 where
  cash : ℚ
  positions : List (String × Position)
  portfolio_history : List ℚ

/-- Python's `positions[symbol]` read.  The source only ever evaluates it for
symbols that are keys of the dict (the strategy's declared targets); for an
absent key we return the zero position, which agrees with the source on its
whole domain. -/
def getPos (positions : List (String × Position)) (symbol : String) : Position :=
  match positions.lookup symbol with
  | some p => p
  | none => ⟨0, 0⟩

/-- Python's `positions[symbol] = p` write (no-op on an absent key, matching
`getPos`'s domain convention). -/
def setPos (positions : List (String × Position)) (symbol : String) (p : Position) :
    List (String × Position) :=
  positions.map (fun kv => if kv.1 = symbol then (kv.1, p) else kv)

/-- The mark-to-market sum `current_holdings_value`: `Σ shares_i × close_i`
over the positions dict, a symbol without an available price contributing 0. -/
def holdings_value (positions : List (String × Position)) (prices : String → Option ℚ) : ℚ :=
  positions.foldl (fun acc kv =>
    match prices kv.1 with
    | some p => acc + kv.2.shares * p
    | none => acc) 0

/-- Portfolio value appended to `portfolio_history` for a row: `cash + current_holdings_value`. -/
def mark_value (s : StateV2) (prices : String → Option ℚ) : ℚ :=
  s.cash + holdings_value s.positions prices

/-- The reset threshold `1e-9` of the v2 SELL branch. -/
def epsShares : ℚ := 1 / 1000000000

/-- BUY execution shared by both simulator versions (lines 92–104 and 242–255 of
the source): invest `cash × position_size`, deduct the fee from the shares
received, decrease cash by the full investment, and re-average the cost. -/
def execBuy (fee_pct : ℚ) (cash : ℚ) (positions : List (String × Position))
    (symbol : String) (position_size price : ℚ) : ℚ × List (String × Position) :=
  let investment_amount := cash * position_size
  let fee := investment_amount * fee_pct
  let shares_to_buy := (investment_amount - fee) / price
  let old := getPos positions symbol
  let new_shares := old.shares + shares_to_buy
  let new_avg :=
    if 0 < new_shares then
      (old.avg_cost * old.shares + price * shares_to_buy) / new_shares
    else old.avg_cost
  (cash - investment_amount, setPos positions symbol ⟨new_shares, new_avg⟩)

/-- Body of the v2 simulation loop for one row of `sim_df`: mark-to-market
append, then the BUY / SELL / skip logic of lines 221–274 of the source.
The Python `if signal == 'BUY' and guard: … elif signal == 'SELL' and guard: …`
chain is rendered as a match on the signal token with the residual guards as
conditionals, which branches identically. -/
def stepV2 (fee_pct : ℚ) (s : StateV2) (row : SimRow) : StateV2 :=
  let hist := s.portfolio_history ++ [mark_value s row.prices]
  match row.prices row.symbol with
  | none => { s with portfolio_history := hist }
  | some price =>
    match row.signal with
    | Signal.BUY =>
      if 1 < s.cash ∧ 0 < row.position_size then
        let cp := execBuy fee_pct s.cash s.positions row.symbol row.position_size price
        { cash := cp.1
          positions := cp.2
          portfolio_history := hist
          trade_log := s.trade_log ++ [⟨Signal.BUY, row.symbol, price, 0⟩] }
      else { s with portfolio_history := hist }
    | Signal.SELL =>
      if 0 < (getPos s.positions row.symbol).shares ∧ 0 < row.position_size then
        let old := getPos s.positions row.symbol
        let shares_to_sell := old.shares * row.position_size
        if 0 < shares_to_sell then
          let sale_value := shares_to_sell * price
          let fee := sale_value * fee_pct
          let pnl := (price - old.avg_cost) * shares_to_sell
          let remaining := old.shares - shares_to_sell
          { cash := s.cash + (sale_value - fee)
            positions := setPos s.positions row.symbol
              (if remaining < epsShares then ⟨0, 0⟩ else ⟨remaining, old.avg_cost⟩)
            portfolio_history := hist
            trade_log := s.trade_log ++ [⟨Signal.SELL, row.symbol, price, pnl⟩] }
        else { s with portfolio_history := hist }
      else { s with portfolio_history := hist }
    | Signal.HOLD => { s with portfolio_history := hist }

/-- Body of the v1 simulation loop for one row: same mark-to-market and BUY
logic, but SELL liquidates the whole position, is not gated on
`position_size`, and nothing is logged (lines 69–111 of the source). -/
def stepV1 (fee_pct : ℚ) (s : StateV1) (row : SimRow) : StateV1 :=
  let hist := s.portfolio_history ++ [s.cash + holdings_value s.positions row.prices]
  match row.prices row.symbol with
  | none => { s with portfolio_history := hist }
  | some price =>
    match row.signal with
    | Signal.BUY =>
      if 1 < s.cash ∧ 0 < row.position_size then
        let cp := execBuy fee_pct s.cash s.positions row.symbol row.position_size price
        { cash := cp.1, positions := cp.2, portfolio_history := hist }
      else { s with portfolio_history := hist }
    | Signal.SELL =>
      if 0 < (getPos s.positions row.symbol).shares then
        let old := getPos s.positions row.symbol
        let sale_value := old.shares * price
        let fee := sale_value * fee_pct
        { cash := s.cash + (sale_value - fee)
          positions := setPos s.positions row.symbol ⟨0, 0⟩
          portfolio_history := hist }
      else { s with portfolio_history := hist }
    | Signal.HOLD => { s with portfolio_history := hist }

/-- Initial positions dict: one zero position per declared target symbol. -/
def init_positions (targets : List String) : List (String × Position) :=
  targets.map (fun t => (t, ⟨0, 0⟩))

/-- The whole v2 simulation loop over the rows of `sim_df`. -/
def run_backtest_v2 (initial_capital fee_pct : ℚ) (targets : List String)
    (rows : List SimRow) : StateV2 :=
  rows.foldl (stepV2 fee_pct) ⟨initial_capital, init_positions targets, [], []⟩

/-- The whole v1 simulation loop over the rows of `sim_df`. -/
def run_backtest_v1 (initial_capital fee_pct : ℚ) (targets : List String)
    (rows : List SimRow) : StateV1 :=
  rows.foldl (stepV1 fee_pct) ⟨initial_capital, init_positions targets, []⟩

/-- The return series `pd.Series(portfolio_history).pct_change().fillna(0)`:
first return is 0 (the NaN filled), then `value[t]/value[t-1] − 1`. -/
def returnsOf : List ℚ → List ℚ
  | [] => []
  | v :: vs => 0 :: List.zipWith (fun prev cur => cur / prev - 1) (v :: vs) vs

/-- Arithmetic mean of a list (pandas `Series.mean`); 0 on the empty list. -/
def meanQ (l : List ℚ) : ℚ := l.sum / l.length

/-- Sample variance with `ddof = 1`, the square of pandas `Series.std`; 0 when
fewer than two observations (where pandas yields NaN — the only use the
source makes of the value is the comparison `std > 0`, on which NaN and 0
behave identically). -/
def sample_var (l : List ℚ) : ℚ :=
  if l.length ≤ 1 then 0
  else (l.map (fun x => (x - meanQ l) ^ 2)).sum / ((l.length : ℚ) - 1)

/-- Pandas `Series.std(ddof=1)` as a real number. -/
noncomputable def stdQ (l : List ℚ) : ℝ := Real.sqrt ((sample_var l : ℚ) : ℝ)

/-- Annualized Sharpe ratio of a portfolio history, line 286 of the source:
`(returns.mean() / returns.std()) * sqrt(365*24)` when `returns.std() > 0`,
else 0. -/
noncomputable def sharpe_ratio (h : List ℚ) : ℝ :=
  if 0 < stdQ (returnsOf h) then
    ((meanQ (returnsOf h) : ℝ) / stdQ (returnsOf h)) * Real.sqrt (365 * 24)
  else 0

/-- Running products of `1 + x` with accumulator `acc` (pandas `cumprod`). -/
def cumProdAux (acc : ℚ) : List ℚ → List ℚ
  | [] => []
  | x :: xs => (acc * (1 + x)) :: cumProdAux (acc * (1 + x)) xs

/-- `cumulative_returns = (1 + returns).cumprod()`. -/
def cumulative_returns (r : List ℚ) : List ℚ := cumProdAux 1 r

/-- Running maxima with accumulator `m`. -/
def runMaxAux (m : ℚ) : List ℚ → List ℚ
  | [] => []
  | x :: xs => max m x :: runMaxAux (max m x) xs

/-- `peak = cumulative_returns.expanding(min_periods=1).max()`. -/
def peakOf : List ℚ → List ℚ
  | [] => []
  | x :: xs => runMaxAux x (x :: xs)

/-- `drawdown = (cumulative_returns / peak) - 1`, elementwise. -/
def drawdownOf (h : List ℚ) : List ℚ :=
  let c := cumulative_returns (returnsOf h)
  List.zipWith (fun cu pk => cu / pk - 1) c (peakOf c)

/-- Pandas `Series.min` of a nonempty series; 0 on the empty list. -/
def minQ : List ℚ → ℚ
  | [] => 0
  | x :: xs => xs.foldl min x

/-- `max_drawdown_pct = abs(drawdown.min() * 100)`, lines 288–291 of the source. -/
def max_drawdown_pct (h : List ℚ) : ℚ := |minQ (drawdownOf h) * 100|

/-- `final_value = portfolio_history[-1]`; the source indexes a nonempty list. -/
def final_value (h : List ℚ) : ℚ := h.getLastD 0

/-- `total_return_pct = ((final_value / initial_capital) - 1) * 100`. -/
def total_return_pct (initial_capital : ℚ) (h : List ℚ) : ℚ :=
  (final_value h / initial_capital - 1) * 100

/-! ### Structural lemmas about one simulation step -/

lemma lookup_setPos_self (ps : List (String × Position)) (sym : String) (p : Position) :
    (setPos ps sym p).lookup sym = (ps.lookup sym).map (fun _ => p) := by
  induction ps with
  | nil => rfl
  | cons kv tl ih =>
    rcases kv with ⟨k, q⟩
    by_cases h : k = sym
    · subst h
      show List.lookup k ((if k = k then (k, p) else (k, q)) :: setPos tl k p) =
        Option.map (fun _ => p) (List.lookup k ((k, q) :: tl))
      rw [if_pos rfl]
      simp [List.lookup]
    · have hbeq : (sym == k) = false := by
        simp only [beq_eq_false_iff_ne, ne_eq]
        exact fun hh => h hh.symm
      show List.lookup sym ((if k = sym then (k, p) else (k, q)) :: setPos tl sym p) =
        Option.map (fun _ => p) (List.lookup sym ((k, q) :: tl))
      rw [if_neg h]
      simp only [List.lookup, hbeq]
      exact ih

lemma getPos_setPos_self (ps : List (String × Position)) (sym : String) (p q : Position)
    (h : ps.lookup sym = some q) : getPos (setPos ps sym p) sym = p := by
  simp [getPos, lookup_setPos_self, h]

lemma stepV2_none (fee_pct : ℚ) (s : StateV2) (row : SimRow)
    (h : row.prices row.symbol = none) :
    stepV2 fee_pct s row =
      { s with portfolio_history := s.portfolio_history ++ [mark_value s row.prices] } := by
  simp [stepV2, h]

lemma stepV2_hold (fee_pct : ℚ) (s : StateV2) (row : SimRow) (price : ℚ)
    (hp : row.prices row.symbol = some price) (hsig : row.signal = Signal.HOLD) :
    stepV2 fee_pct s row =
      { s with portfolio_history := s.portfolio_history ++ [mark_value s row.prices] } := by
  simp [stepV2, hp, hsig]

lemma stepV2_buy_fail (fee_pct : ℚ) (s : StateV2) (row : SimRow) (price : ℚ)
    (hp : row.prices row.symbol = some price) (hsig : row.signal = Signal.BUY)
    (hg : ¬(1 < s.cash ∧ 0 < row.position_size)) :
    stepV2 fee_pct s row =
      { s with portfolio_history := s.portfolio_history ++ [mark_value s row.prices] } := by
  simp only [stepV2, hp, hsig]
  rw [if_neg hg]

lemma stepV2_buy (fee_pct : ℚ) (s : StateV2) (row : SimRow) (price : ℚ)
    (hp : row.prices row.symbol = some price) (hsig : row.signal = Signal.BUY)
    (hc : 1 < s.cash) (hps : 0 < row.position_size) :
    stepV2 fee_pct s row =
      { cash := (execBuy fee_pct s.cash s.positions row.symbol row.position_size price).1
        positions := (execBuy fee_pct s.cash s.positions row.symbol row.position_size price).2
        portfolio_history := s.portfolio_history ++ [mark_value s row.prices]
        trade_log := s.trade_log ++ [⟨Signal.BUY, row.symbol, price, 0⟩] } := by
  simp only [stepV2, hp, hsig]
  rw [if_pos ⟨hc, hps⟩]

lemma stepV2_sell_fail (fee_pct : ℚ) (s : StateV2) (row : SimRow) (price : ℚ)
    (hp : row.prices row.symbol = some price) (hsig : row.signal = Signal.SELL)
    (hg : ¬(0 < (getPos s.positions row.symbol).shares ∧ 0 < row.position_size)) :
    stepV2 fee_pct s row =
      { s with portfolio_history := s.portfolio_history ++ [mark_value s row.prices] } := by
  simp only [stepV2, hp, hsig]
  rw [if_neg hg]

lemma stepV2_sell (fee_pct : ℚ) (s : StateV2) (row : SimRow) (price : ℚ)
    (hp : row.prices row.symbol = some price) (hsig : row.signal = Signal.SELL)
    (hsh : 0 < (getPos s.positions row.symbol).shares) (hps : 0 < row.position_size) :
    stepV2 fee_pct s row =
      { cash := s.cash + ((getPos s.positions row.symbol).shares * row.position_size * price -
          (getPos s.positions row.symbol).shares * row.position_size * price * fee_pct)
        positions := setPos s.positions row.symbol
          (if (getPos s.positions row.symbol).shares -
              (getPos s.positions row.symbol).shares * row.position_size < epsShares then ⟨0, 0⟩
           else ⟨(getPos s.positions row.symbol).shares -
              (getPos s.positions row.symbol).shares * row.position_size,
              (getPos s.positions row.symbol).avg_cost⟩)
        portfolio_history := s.portfolio_history ++ [mark_value s row.prices]
        trade_log := s.trade_log ++ [⟨Signal.SELL, row.symbol, price,
          (price - (getPos s.positions row.symbol).avg_cost) *
            ((getPos s.positions row.symbol).shares * row.position_size)⟩] } := by
  simp only [stepV2, hp, hsig]
  rw [if_pos ⟨hsh, hps⟩, if_pos (mul_pos hsh hps)]

lemma stepV1_none (fee_pct : ℚ) (s : StateV1) (row : SimRow)
    (h : row.prices row.symbol = none) :
    stepV1 fee_pct s row =
      { s with portfolio_history :=
          s.portfolio_history ++ [s.cash + holdings_value s.positions row.prices] } := by
  simp [stepV1, h]

lemma stepV1_hold (fee_pct : ℚ) (s : StateV1) (row : SimRow) (price : ℚ)
    (hp : row.prices row.symbol = some price) (hsig : row.signal = Signal.HOLD) :
    stepV1 fee_pct s row =
      { s with portfolio_history :=
          s.portfolio_history ++ [s.cash + holdings_value s.positions row.prices] } := by
  simp [stepV1, hp, hsig]

lemma stepV1_buy_fail (fee_pct : ℚ) (s : StateV1) (row : SimRow) (price : ℚ)
    (hp : row.prices row.symbol = some price) (hsig : row.signal = Signal.BUY)
    (hg : ¬(1 < s.cash ∧ 0 < row.position_size)) :
    stepV1 fee_pct s row =
      { s with portfolio_history :=
          s.portfolio_history ++ [s.cash + holdings_value s.positions row.prices] } := by
  simp only [stepV1, hp, hsig]
  rw [if_neg hg]

lemma stepV1_buy (fee_pct : ℚ) (s : StateV1) (row : SimRow) (price : ℚ)
    (hp : row.prices row.symbol = some price) (hsig : row.signal = Signal.BUY)
    (hc : 1 < s.cash) (hps : 0 < row.position_size) :
    stepV1 fee_pct s row =
      { cash := (execBuy fee_pct s.cash s.positions row.symbol row.position_size price).1
        positions := (execBuy fee_pct s.cash s.positions row.symbol row.position_size price).2
        portfolio_history :=
          s.portfolio_history ++ [s.cash + holdings_value s.positions row.prices] } := by
  simp only [stepV1, hp, hsig]
  rw [if_pos ⟨hc, hps⟩]

lemma stepV1_sell_fail (fee_pct : ℚ) (s : StateV1) (row : SimRow) (price : ℚ)
    (hp : row.prices row.symbol = some price) (hsig : row.signal = Signal.SELL)
    (hg : ¬0 < (getPos s.positions row.symbol).shares) :
    stepV1 fee_pct s row =
      { s with portfolio_history :=
          s.portfolio_history ++ [s.cash + holdings_value s.positions row.prices] } := by
  simp only [stepV1, hp, hsig]
  rw [if_neg hg]

lemma stepV1_sell (fee_pct : ℚ) (s : StateV1) (row : SimRow) (price : ℚ)
    (hp : row.prices row.symbol = some price) (hsig : row.signal = Signal.SELL)
    (hsh : 0 < (getPos s.positions row.symbol).shares) :
    stepV1 fee_pct s row =
      { cash := s.cash + ((getPos s.positions row.symbol).shares * price -
          (getPos s.positions row.symbol).shares * price * fee_pct)
        positions := setPos s.positions row.symbol ⟨0, 0⟩
        portfolio_history :=
          s.portfolio_history ++ [s.cash + holdings_value s.positions row.prices] } := by
  simp only [stepV1, hp, hsig]
  rw [if_pos hsh]

/-- Looking up a position through `getPos` after a `setPos` on a present key
returns the stored position. -/
lemma lookup_stepV2_buy (fee_pct : ℚ) (s : StateV2) (row : SimRow) (price : ℚ) (q : Position)
    (hp : row.prices row.symbol = some price) (hsig : row.signal = Signal.BUY)
    (hc : 1 < s.cash) (hps : 0 < row.position_size)
    (hq : s.positions.lookup row.symbol = some q) :
    (stepV2 fee_pct s row).positions.lookup row.symbol =
      some ⟨q.shares + (s.cash * row.position_size - s.cash * row.position_size * fee_pct) / price,
        if 0 < q.shares + (s.cash * row.position_size - s.cash * row.position_size * fee_pct) / price
        then (q.avg_cost * q.shares + price *
            ((s.cash * row.position_size - s.cash * row.position_size * fee_pct) / price)) /
          (q.shares + (s.cash * row.position_size - s.cash * row.position_size * fee_pct) / price)
        else q.avg_cost⟩ := by
  rw [stepV2_buy fee_pct s row price hp hsig hc hps]
  simp only [execBuy, getPos, hq, lookup_setPos_self]
  rfl

/-! ### Claim theorems -/

/-- C5: a signal event whose execution price is unavailable at its timestamp is
skipped entirely — cash, all positions and the trade log are unchanged and no
error is raised (the model is total); only the mark-to-market history value is
appended. -/
theorem missing_price_skips_event (fee_pct : ℚ) (s : StateV2) (row : SimRow)
    (h : row.prices row.symbol = none) :
    (stepV2 fee_pct s row).cash = s.cash ∧
    (stepV2 fee_pct s row).positions = s.positions ∧
    (stepV2 fee_pct s row).trade_log = s.trade_log := by
  rw [stepV2_none fee_pct s row h]
  exact ⟨rfl, rfl, rfl⟩

/-- Witness for C5: a concrete BUY event at a missing-price timestamp leaves
cash 10000, the initial positions and the empty trade log unchanged. -/
theorem missing_price_skips_event_witness :
    (stepV2 (1/1000) ⟨10000, init_positions ["MATIC"], [], []⟩
      ⟨0, "MATIC", Signal.BUY, 1/5, fun _ => none⟩).cash = 10000 ∧
    (stepV2 (1/1000) ⟨10000, init_positions ["MATIC"], [], []⟩
      ⟨0, "MATIC", Signal.BUY, 1/5, fun _ => none⟩).positions = init_positions ["MATIC"] ∧
    (stepV2 (1/1000) ⟨10000, init_positions ["MATIC"], [], []⟩
      ⟨0, "MATIC", Signal.BUY, 1/5, fun _ => none⟩).trade_log = [] :=
  missing_price_skips_event (1/1000) ⟨10000, init_positions ["MATIC"], [], []⟩
    ⟨0, "MATIC", Signal.BUY, 1/5, fun _ => none⟩ rfl

/-- C1: a BUY event with an available price executes only if `cash > 1.0` and
`position_size > 0` (otherwise cash, positions and the trade log are
unchanged); when it executes, the investment is `cash × position_size` of the
current cash, the fee is `investment × f`, the shares acquired are
`(investment − fee) / price`, cash decreases by the full investment, and the
new average cost is `(avg_cost×old_shares + price×new_shares) /
(old_shares+new_shares)`; consequently two successive BUYs netting `a1` shares
at price `p1` and `a2` shares at price `p2` from an empty position leave
`avg_cost = (a1×p1 + a2×p2)/(a1+a2)`. -/
theorem buy_semantics :
    (∀ (fee_pct : ℚ) (s : StateV2) (row : SimRow) (price : ℚ),
      row.prices row.symbol = some price → row.signal = Signal.BUY →
      ¬(1 < s.cash ∧ 0 < row.position_size) →
      (stepV2 fee_pct s row).cash = s.cash ∧
      (stepV2 fee_pct s row).positions = s.positions ∧
      (stepV2 fee_pct s row).trade_log = s.trade_log) ∧
    (∀ (fee_pct : ℚ) (s : StateV2) (row : SimRow) (price : ℚ) (q : Position),
      row.prices row.symbol = some price → row.signal = Signal.BUY →
      s.positions.lookup row.symbol = some q →
      1 < s.cash → 0 < row.position_size →
      (stepV2 fee_pct s row).cash = s.cash - s.cash * row.position_size ∧
      getPos (stepV2 fee_pct s row).positions row.symbol =
        ⟨q.shares + (s.cash * row.position_size - s.cash * row.position_size * fee_pct) / price,
         if 0 < q.shares +
            (s.cash * row.position_size - s.cash * row.position_size * fee_pct) / price
         then (q.avg_cost * q.shares + price *
              ((s.cash * row.position_size - s.cash * row.position_size * fee_pct) / price)) /
            (q.shares + (s.cash * row.position_size - s.cash * row.position_size * fee_pct) / price)
         else q.avg_cost⟩ ∧
      (stepV2 fee_pct s row).trade_log =
        s.trade_log ++ [⟨Signal.BUY, row.symbol, price, 0⟩]) ∧
    (∀ (fee_pct : ℚ) (s : StateV2) (r1 r2 : SimRow) (p1 p2 c a1 a2 : ℚ),
      r1.prices r1.symbol = some p1 → r1.signal = Signal.BUY →
      r2.symbol = r1.symbol → r2.prices r2.symbol = some p2 → r2.signal = Signal.BUY →
      s.positions.lookup r1.symbol = some ⟨0, c⟩ →
      1 < s.cash → 0 < r1.position_size →
      1 < (stepV2 fee_pct s r1).cash → 0 < r2.position_size →
      a1 = (s.cash * r1.position_size - s.cash * r1.position_size * fee_pct) / p1 →
      a2 = ((stepV2 fee_pct s r1).cash * r2.position_size -
        (stepV2 fee_pct s r1).cash * r2.position_size * fee_pct) / p2 →
      0 < a1 → 0 < a2 →
      (getPos (stepV2 fee_pct (stepV2 fee_pct s r1) r2).positions r1.symbol).avg_cost =
        (a1 * p1 + a2 * p2) / (a1 + a2)) := by
  refine ⟨?_, ?_, ?_⟩
  · intro fee_pct s row price hp hsig hg
    rw [stepV2_buy_fail fee_pct s row price hp hsig hg]
    exact ⟨rfl, rfl, rfl⟩
  · intro fee_pct s row price q hp hsig hq hc hps
    refine ⟨?_, ?_, ?_⟩
    · rw [stepV2_buy fee_pct s row price hp hsig hc hps]
      simp [execBuy]
    · simp [getPos, lookup_stepV2_buy fee_pct s row price q hp hsig hc hps hq]
    · rw [stepV2_buy fee_pct s row price hp hsig hc hps]
  · intro fee_pct s r1 r2 p1 p2 c a1 a2 hp1 hsig1 hsym hp2 hsig2 hq hc1 hps1 hc2 hps2 ha1 ha2
      ha1pos ha2pos
    have hl1 := lookup_stepV2_buy fee_pct s r1 p1 ⟨0, c⟩ hp1 hsig1 hc1 hps1 hq
    rw [← ha1] at hl1
    have havg1 : (stepV2 fee_pct s r1).positions.lookup r1.symbol = some ⟨a1, p1⟩ := by
      rw [hl1]
      refine congrArg some ?_
      show (⟨(0 : ℚ) + a1, if 0 < (0 : ℚ) + a1 then (c * 0 + p1 * a1) / ((0 : ℚ) + a1) else c⟩ :
        Position) = ⟨a1, p1⟩
      rw [zero_add, mul_zero, zero_add, if_pos ha1pos,
        mul_div_cancel_right₀ p1 (ne_of_gt ha1pos)]
    have hq2 : (stepV2 fee_pct s r1).positions.lookup r2.symbol = some ⟨a1, p1⟩ := by
      rw [hsym]; exact havg1
    have hl2 := lookup_stepV2_buy fee_pct (stepV2 fee_pct s r1) r2 p2 ⟨a1, p1⟩ hp2 hsig2 hc2
      hps2 hq2
    rw [← ha2] at hl2
    rw [hsym] at hl2
    simp only [getPos, hl2]
    show (if 0 < a1 + a2 then (p1 * a1 + p2 * a2) / (a1 + a2) else p1) =
      (a1 * p1 + a2 * p2) / (a1 + a2)
    rw [if_pos (add_pos ha1pos ha2pos)]
    ring

/-- Witness for C1: with capital 10000 and fee 0.001, a BUY with
`position_size = 0` leaves cash unchanged; a BUY of a fifth of the cash at
price 1 leaves cash `10000 − 2000`; and two successive one-fifth BUYs at
prices 1 and 2 leave `avg_cost = (1998·1 + 799.2·2)/(1998 + 799.2)`. -/
theorem buy_semantics_witness :
    ((stepV2 (1/1000) ⟨10000, init_positions ["MATIC"], [], []⟩
        ⟨0, "MATIC", Signal.BUY, 0, fun _ => some 1⟩).cash = 10000) ∧
    ((stepV2 (1/1000) ⟨10000, init_positions ["MATIC"], [], []⟩
        ⟨0, "MATIC", Signal.BUY, 1/5, fun _ => some 1⟩).cash = 10000 - 10000 * (1/5)) ∧
    ((getPos (stepV2 (1/1000) (stepV2 (1/1000) ⟨10000, init_positions ["MATIC"], [], []⟩
        ⟨0, "MATIC", Signal.BUY, 1/5, fun _ => some 1⟩)
        ⟨1, "MATIC", Signal.BUY, 1/5, fun _ => some 2⟩).positions "MATIC").avg_cost =
      (1998 * 1 + (3996/5) * 2) / (1998 + 3996/5)) := by
  refine ⟨?_, ?_, ?_⟩
  · exact (buy_semantics.1 (1/1000) ⟨10000, init_positions ["MATIC"], [], []⟩
      ⟨0, "MATIC", Signal.BUY, 0, fun _ => some 1⟩ 1 rfl rfl (by norm_num)).1
  · exact (buy_semantics.2.1 (1/1000) ⟨10000, init_positions ["MATIC"], [], []⟩
      ⟨0, "MATIC", Signal.BUY, 1/5, fun _ => some 1⟩ 1 ⟨0, 0⟩ rfl rfl rfl (by norm_num)
      (by norm_num)).1
  · exact buy_semantics.2.2 (1/1000) ⟨10000, init_positions ["MATIC"], [], []⟩
      ⟨0, "MATIC", Signal.BUY, 1/5, fun _ => some 1⟩
      ⟨1, "MATIC", Signal.BUY, 1/5, fun _ => some 2⟩ 1 2 0 1998 (3996/5)
      rfl rfl rfl rfl rfl rfl (by norm_num) (by norm_num)
      (by norm_num [stepV2, execBuy, getPos, setPos, init_positions, mark_value,
        holdings_value, epsShares])
      (by norm_num) (by norm_num)
      (by norm_num [stepV2, execBuy, getPos, setPos, init_positions, mark_value,
        holdings_value, epsShares])
      (by norm_num) (by norm_num)

lemma getPos_of_lookup (ps : List (String × Position)) (sym : String) (q : Position)
    (hq : ps.lookup sym = some q) : getPos ps sym = q := by
  simp [getPos, hq]

lemma lookup_stepV2_sell (fee_pct : ℚ) (s : StateV2) (row : SimRow) (price : ℚ) (q : Position)
    (hp : row.prices row.symbol = some price) (hsig : row.signal = Signal.SELL)
    (hq : s.positions.lookup row.symbol = some q) (hsh : 0 < q.shares)
    (hps : 0 < row.position_size) :
    (stepV2 fee_pct s row).positions.lookup row.symbol =
      some (if q.shares - q.shares * row.position_size < epsShares then ⟨0, 0⟩
        else ⟨q.shares - q.shares * row.position_size, q.avg_cost⟩) := by
  have hgp : getPos s.positions row.symbol = q := getPos_of_lookup _ _ _ hq
  rw [stepV2_sell fee_pct s row price hp hsig (by rw [hgp]; exact hsh) hps]
  show (setPos s.positions row.symbol _).lookup row.symbol = _
  rw [lookup_setPos_self, hq, hgp]
  rfl

/-- C2: a SELL event with an available price executes only if the current
shares are positive and `position_size > 0` (otherwise cash, positions and the
trade log are unchanged); when it executes, `shares_to_sell = current_shares ×
position_size`, cash increases by `shares_to_sell × price × (1 − f)`, a
`TradeLogEntry{SELL, pnl}` with `pnl = (price − avg_cost) × shares_to_sell`
computed from the pre-sale average cost is appended, `position_size = 1`
liquidates the position entirely, and selling `position_size = 1/2` of 10
shares leaves exactly 5 shares at the unchanged average cost. -/
theorem sell_semantics :
    (∀ (fee_pct : ℚ) (s : StateV2) (row : SimRow) (price : ℚ),
      row.prices row.symbol = some price → row.signal = Signal.SELL →
      ¬(0 < (getPos s.positions row.symbol).shares ∧ 0 < row.position_size) →
      (stepV2 fee_pct s row).cash = s.cash ∧
      (stepV2 fee_pct s row).positions = s.positions ∧
      (stepV2 fee_pct s row).trade_log = s.trade_log) ∧
    (∀ (fee_pct : ℚ) (s : StateV2) (row : SimRow) (price : ℚ) (q : Position),
      row.prices row.symbol = some price → row.signal = Signal.SELL →
      s.positions.lookup row.symbol = some q →
      0 < q.shares → 0 < row.position_size →
      (stepV2 fee_pct s row).cash =
        s.cash + q.shares * row.position_size * price * (1 - fee_pct) ∧
      (stepV2 fee_pct s row).trade_log = s.trade_log ++
        [⟨Signal.SELL, row.symbol, price,
          (price - q.avg_cost) * (q.shares * row.position_size)⟩] ∧
      getPos (stepV2 fee_pct s row).positions row.symbol =
        (if q.shares - q.shares * row.position_size < epsShares then ⟨0, 0⟩
         else ⟨q.shares - q.shares * row.position_size, q.avg_cost⟩) ∧
      (row.position_size = 1 → getPos (stepV2 fee_pct s row).positions row.symbol = ⟨0, 0⟩)) ∧
    (∀ (fee_pct : ℚ) (s : StateV2) (row : SimRow) (price c : ℚ),
      row.prices row.symbol = some price → row.signal = Signal.SELL →
      s.positions.lookup row.symbol = some ⟨10, c⟩ →
      row.position_size = 1/2 →
      getPos (stepV2 fee_pct s row).positions row.symbol = ⟨5, c⟩) := by
  refine ⟨?_, ?_, ?_⟩
  · intro fee_pct s row price hp hsig hg
    rw [stepV2_sell_fail fee_pct s row price hp hsig hg]
    exact ⟨rfl, rfl, rfl⟩
  · intro fee_pct s row price q hp hsig hq hsh hps
    have hgp : getPos s.positions row.symbol = q := getPos_of_lookup _ _ _ hq
    have hl := lookup_stepV2_sell fee_pct s row price q hp hsig hq hsh hps
    refine ⟨?_, ?_, ?_, ?_⟩
    · rw [stepV2_sell fee_pct s row price hp hsig (by rw [hgp]; exact hsh) hps, hgp]
      show s.cash + (q.shares * row.position_size * price -
        q.shares * row.position_size * price * fee_pct) = _
      ring
    · rw [stepV2_sell fee_pct s row price hp hsig (by rw [hgp]; exact hsh) hps, hgp]
    · exact getPos_of_lookup _ _ _ hl
    · intro h1
      rw [getPos_of_lookup _ _ _ hl, h1]
      rw [if_pos (by rw [mul_one, sub_self]; exact by norm_num [epsShares])]
  · intro fee_pct s row price c hp hsig hq hps
    have hl := lookup_stepV2_sell fee_pct s row price ⟨10, c⟩ hp hsig hq (by norm_num)
      (by rw [hps]; norm_num)
    rw [getPos_of_lookup _ _ _ hl, hps]
    norm_num [epsShares]

/-- Witness for C2: from 10 shares at average cost 3, a SELL with
`position_size = 0` changes nothing; a SELL of half the position at price 2
with fee 0.001 yields cash `100 + 10·(1/2)·2·(1 − 1/1000)`, logs
`pnl = (2 − 3)·(10·(1/2))`, and leaves `⟨5, 3⟩`. -/
theorem sell_semantics_witness :
    ((stepV2 (1/1000) ⟨100, [("MATIC", ⟨10, 3⟩)], [], []⟩
        ⟨0, "MATIC", Signal.SELL, 0, fun _ => some 2⟩).cash = 100) ∧
    ((stepV2 (1/1000) ⟨100, [("MATIC", ⟨10, 3⟩)], [], []⟩
        ⟨0, "MATIC", Signal.SELL, 1/2, fun _ => some 2⟩).cash =
      100 + 10 * (1/2) * 2 * (1 - 1/1000)) ∧
    ((stepV2 (1/1000) ⟨100, [("MATIC", ⟨10, 3⟩)], [], []⟩
        ⟨0, "MATIC", Signal.SELL, 1/2, fun _ => some 2⟩).trade_log =
      [⟨Signal.SELL, "MATIC", 2, (2 - 3) * (10 * (1/2))⟩]) ∧
    (getPos (stepV2 (1/1000) ⟨100, [("MATIC", ⟨10, 3⟩)], [], []⟩
        ⟨0, "MATIC", Signal.SELL, 1/2, fun _ => some 2⟩).positions "MATIC" = ⟨5, 3⟩) := by
  refine ⟨?_, ?_, ?_, ?_⟩
  · exact (sell_semantics.1 (1/1000) ⟨100, [("MATIC", ⟨10, 3⟩)], [], []⟩
      ⟨0, "MATIC", Signal.SELL, 0, fun _ => some 2⟩ 2 rfl rfl (by norm_num)).1
  · exact (sell_semantics.2.1 (1/1000) ⟨100, [("MATIC", ⟨10, 3⟩)], [], []⟩
      ⟨0, "MATIC", Signal.SELL, 1/2, fun _ => some 2⟩ 2 ⟨10, 3⟩ rfl rfl rfl (by norm_num)
      (by norm_num)).1
  · exact (sell_semantics.2.1 (1/1000) ⟨100, [("MATIC", ⟨10, 3⟩)], [], []⟩
      ⟨0, "MATIC", Signal.SELL, 1/2, fun _ => some 2⟩ 2 ⟨10, 3⟩ rfl rfl rfl (by norm_num)
      (by norm_num)).2.1
  · exact sell_semantics.2.2 (1/1000) ⟨100, [("MATIC", ⟨10, 3⟩)], [], []⟩
      ⟨0, "MATIC", Signal.SELL, 1/2, fun _ => some 2⟩ 2 3 rfl rfl rfl rfl

/-- C3 counterexample: in the scenario — capital 10000, fee 0.001, BUY MATIC
at price 1.00 with position_size 0.2, then SELL position_size 1.0 at price
1.10 — the simulator logs `pnl = 999/5 = 199.8`, which differs from the
claimed `(1.10 − 2000/1998) × 1998 = 197.8` and is more than 1 away from the
claimed `≈ 197.6`; and `total_return_pct = 989/500 = 1.978`, more than 0.01
away from the claimed `≈ 1.96`. -/
theorem scenario_counterexample :
    ((run_backtest_v2 10000 (1/1000) ["MATIC"]
      [⟨0, "MATIC", Signal.BUY, 1/5, fun s => if s = "MATIC" then some 1 else none⟩,
       ⟨1, "MATIC", Signal.SELL, 1, fun s => if s = "MATIC" then some (11/10) else none⟩]
     ).trade_log.map TradeLogEntry.pnl = [0, 999/5]) ∧
    (999/5 : ℚ) ≠ (11/10 - 2000/1998) * 1998 ∧
    ¬(|(999/5 : ℚ) - 1976/10| ≤ 1) ∧
    (total_return_pct 10000 (run_backtest_v2 10000 (1/1000) ["MATIC"]
      [⟨0, "MATIC", Signal.BUY, 1/5, fun s => if s = "MATIC" then some 1 else none⟩,
       ⟨1, "MATIC", Signal.SELL, 1, fun s => if s = "MATIC" then some (11/10) else none⟩]
     ).portfolio_history = 989/500) ∧
    ¬(|(989/500 : ℚ) - 196/100| ≤ 1/100) := by
  refine ⟨?_, by norm_num, by norm_num [abs_le], ?_, by norm_num [abs_le]⟩ <;>
    norm_num [run_backtest_v2, stepV2, execBuy, mark_value, holdings_value, getPos, setPos,
      init_positions, epsShares, List.foldl, total_return_pct, final_value]

/-- C3 amended: in the same scenario the BUY invests 2000 with fee 2, acquires
1998 shares at recorded average cost 1.00 and leaves cash 8000; the SELL
yields cash `8000 + 2195.6022 = 10195.6022` and logs
`pnl = (1.10 − 1.00) × 1998 = 199.8` (the recorded average cost excludes the
buy fee); the history is `[10000, 10197.8]` (the final value is the
mark-to-market of the SELL timestamp taken before the SELL executes), so
`total_return_pct = 1.978`. -/
theorem scenario_amended :
    ((stepV2 (1/1000) ⟨10000, init_positions ["MATIC"], [], []⟩
        ⟨0, "MATIC", Signal.BUY, 1/5, fun s => if s = "MATIC" then some 1 else none⟩).cash =
      8000) ∧
    (getPos (stepV2 (1/1000) ⟨10000, init_positions ["MATIC"], [], []⟩
        ⟨0, "MATIC", Signal.BUY, 1/5, fun s => if s = "MATIC" then some 1 else none⟩).positions
      "MATIC" = ⟨1998, 1⟩) ∧
    ((run_backtest_v2 10000 (1/1000) ["MATIC"]
      [⟨0, "MATIC", Signal.BUY, 1/5, fun s => if s = "MATIC" then some 1 else none⟩,
       ⟨1, "MATIC", Signal.SELL, 1, fun s => if s = "MATIC" then some (11/10) else none⟩]
     ).cash = 101956022/10000) ∧
    ((run_backtest_v2 10000 (1/1000) ["MATIC"]
      [⟨0, "MATIC", Signal.BUY, 1/5, fun s => if s = "MATIC" then some 1 else none⟩,
       ⟨1, "MATIC", Signal.SELL, 1, fun s => if s = "MATIC" then some (11/10) else none⟩]
     ).trade_log = [⟨Signal.BUY, "MATIC", 1, 0⟩,
        ⟨Signal.SELL, "MATIC", 11/10, (11/10 - 1) * 1998⟩]) ∧
    ((run_backtest_v2 10000 (1/1000) ["MATIC"]
      [⟨0, "MATIC", Signal.BUY, 1/5, fun s => if s = "MATIC" then some 1 else none⟩,
       ⟨1, "MATIC", Signal.SELL, 1, fun s => if s = "MATIC" then some (11/10) else none⟩]
     ).portfolio_history = [10000, 101978/10]) ∧
    (total_return_pct 10000 [10000, 101978/10] = 989/500) := by
  refine ⟨?_, ?_, ?_, ?_, ?_, ?_⟩ <;>
    norm_num [run_backtest_v2, stepV2, execBuy, mark_value, holdings_value, getPos, setPos,
      init_positions, epsShares, List.foldl, total_return_pct, final_value,
      TradeLogEntry.mk.injEq, Position.mk.injEq]

/-- Every branch of the v2 step appends exactly the mark-to-market value of the
incoming state to the portfolio history. -/
lemma stepV2_history (fee_pct : ℚ) (s : StateV2) (row : SimRow) :
    (stepV2 fee_pct s row).portfolio_history =
      s.portfolio_history ++ [mark_value s row.prices] := by
  cases hpr : row.prices row.symbol with
  | none => rw [stepV2_none fee_pct s row hpr]
  | some price =>
    cases hsig : row.signal with
    | BUY =>
      by_cases hg : 1 < s.cash ∧ 0 < row.position_size
      · rw [stepV2_buy fee_pct s row price hpr hsig hg.1 hg.2]
      · rw [stepV2_buy_fail fee_pct s row price hpr hsig hg]
    | SELL =>
      by_cases hg : 0 < (getPos s.positions row.symbol).shares ∧ 0 < row.position_size
      · rw [stepV2_sell fee_pct s row price hpr hsig hg.1 hg.2]
      · rw [stepV2_sell_fail fee_pct s row price hpr hsig hg]
    | HOLD => rw [stepV2_hold fee_pct s row price hpr hsig]

/-- The v2 step only ever appends to the trade log. -/
lemma stepV2_log_extend (fee_pct : ℚ) (s : StateV2) (row : SimRow) :
    ∃ t, (stepV2 fee_pct s row).trade_log = s.trade_log ++ t := by
  cases hpr : row.prices row.symbol with
  | none => rw [stepV2_none fee_pct s row hpr]; exact ⟨[], (List.append_nil _).symm⟩
  | some price =>
    cases hsig : row.signal with
    | BUY =>
      by_cases hg : 1 < s.cash ∧ 0 < row.position_size
      · rw [stepV2_buy fee_pct s row price hpr hsig hg.1 hg.2]; exact ⟨_, rfl⟩
      · rw [stepV2_buy_fail fee_pct s row price hpr hsig hg]
        exact ⟨[], (List.append_nil _).symm⟩
    | SELL =>
      by_cases hg : 0 < (getPos s.positions row.symbol).shares ∧ 0 < row.position_size
      · rw [stepV2_sell fee_pct s row price hpr hsig hg.1 hg.2]; exact ⟨_, rfl⟩
      · rw [stepV2_sell_fail fee_pct s row price hpr hsig hg]
        exact ⟨[], (List.append_nil _).symm⟩
    | HOLD =>
      rw [stepV2_hold fee_pct s row price hpr hsig]
      exact ⟨[], (List.append_nil _).symm⟩

/-- The whole v2 run only ever appends to the trade log. -/
lemma runV2_log_extend (fee_pct : ℚ) :
    ∀ (rows : List SimRow) (s : StateV2),
      ∃ t, (rows.foldl (stepV2 fee_pct) s).trade_log = s.trade_log ++ t := by
  intro rows
  induction rows with
  | nil => exact fun s => ⟨[], (List.append_nil _).symm⟩
  | cons r tl ih =>
    intro s
    obtain ⟨t1, ht1⟩ := stepV2_log_extend fee_pct s r
    obtain ⟨t2, ht2⟩ := ih (stepV2 fee_pct s r)
    exact ⟨t1 ++ t2, by rw [List.foldl_cons, ht2, ht1, List.append_assoc]⟩

/-- A v2 step that leaves the trade log unchanged leaves cash and positions
unchanged as well. -/
lemma stepV2_log_eq_noop (fee_pct : ℚ) (s : StateV2) (row : SimRow)
    (h : (stepV2 fee_pct s row).trade_log = s.trade_log) :
    (stepV2 fee_pct s row).cash = s.cash ∧ (stepV2 fee_pct s row).positions = s.positions := by
  revert h
  cases hpr : row.prices row.symbol with
  | none => rw [stepV2_none fee_pct s row hpr]; exact fun _ => ⟨rfl, rfl⟩
  | some price =>
    cases hsig : row.signal with
    | BUY =>
      by_cases hg : 1 < s.cash ∧ 0 < row.position_size
      · rw [stepV2_buy fee_pct s row price hpr hsig hg.1 hg.2]
        intro h
        exact absurd (congrArg List.length h) (by simp)
      · rw [stepV2_buy_fail fee_pct s row price hpr hsig hg]; exact fun _ => ⟨rfl, rfl⟩
    | SELL =>
      by_cases hg : 0 < (getPos s.positions row.symbol).shares ∧ 0 < row.position_size
      · rw [stepV2_sell fee_pct s row price hpr hsig hg.1 hg.2]
        intro h
        exact absurd (congrArg List.length h) (by simp)
      · rw [stepV2_sell_fail fee_pct s row price hpr hsig hg]; exact fun _ => ⟨rfl, rfl⟩
    | HOLD => rw [stepV2_hold fee_pct s row price hpr hsig]; exact fun _ => ⟨rfl, rfl⟩

/-- C9: a SELL event with `position_size = 0` is a no-op in the v2 simulator
apart from the portfolio-history append, so for any signal stream in which
every SELL carries `position_size = 0` — as `strategy.py`'s validator
requires — the v2 simulator never logs a single SELL. -/
theorem sell_zero_size_noop :
    (∀ (fee_pct : ℚ) (s : StateV2) (row : SimRow),
      row.signal = Signal.SELL → row.position_size = 0 →
      (stepV2 fee_pct s row).cash = s.cash ∧
      (stepV2 fee_pct s row).positions = s.positions ∧
      (stepV2 fee_pct s row).trade_log = s.trade_log ∧
      (stepV2 fee_pct s row).portfolio_history =
        s.portfolio_history ++ [mark_value s row.prices]) ∧
    (∀ (initial_capital fee_pct : ℚ) (targets : List String) (rows : List SimRow),
      (∀ row ∈ rows, row.signal = Signal.SELL → row.position_size = 0) →
      ∀ e ∈ (run_backtest_v2 initial_capital fee_pct targets rows).trade_log,
        e.type ≠ Signal.SELL) := by
  have hstep : ∀ (fee_pct : ℚ) (s : StateV2) (row : SimRow),
      row.signal = Signal.SELL → row.position_size = 0 →
      (stepV2 fee_pct s row).cash = s.cash ∧
      (stepV2 fee_pct s row).positions = s.positions ∧
      (stepV2 fee_pct s row).trade_log = s.trade_log := by
    intro fee_pct s row hsig hps
    cases hpr : row.prices row.symbol with
    | none => rw [stepV2_none fee_pct s row hpr]; exact ⟨rfl, rfl, rfl⟩
    | some price =>
      rw [stepV2_sell_fail fee_pct s row price hpr hsig
        (fun hg => absurd hg.2 (by rw [hps]; exact lt_irrefl 0))]
      exact ⟨rfl, rfl, rfl⟩
  have hnosell : ∀ (fee_pct : ℚ) (rows : List SimRow) (s : StateV2),
      (∀ row ∈ rows, row.signal = Signal.SELL → row.position_size = 0) →
      (∀ e ∈ s.trade_log, e.type ≠ Signal.SELL) →
      ∀ e ∈ (rows.foldl (stepV2 fee_pct) s).trade_log, e.type ≠ Signal.SELL := by
    intro fee_pct rows
    induction rows with
    | nil => exact fun s _ hs => hs
    | cons r tl ih =>
      intro s hrows hs
      rw [List.foldl_cons]
      refine ih (stepV2 fee_pct s r) (fun row hm => hrows row (List.mem_cons_of_mem r hm)) ?_
      intro e he
      cases hpr : r.prices r.symbol with
      | none =>
        rw [stepV2_none fee_pct s r hpr] at he
        exact hs e he
      | some price =>
        cases hsig : r.signal with
        | BUY =>
          by_cases hg : 1 < s.cash ∧ 0 < r.position_size
          · rw [stepV2_buy fee_pct s r price hpr hsig hg.1 hg.2] at he
            simp only [List.mem_append, List.mem_singleton] at he
            rcases he with he | he
            · exact hs e he
            · rw [he]
              intro hc
              exact Signal.noConfusion hc
          · rw [stepV2_buy_fail fee_pct s r price hpr hsig hg] at he
            exact hs e he
        | SELL =>
          have hps := hrows r (List.mem_cons_self r tl) hsig
          rw [stepV2_sell_fail fee_pct s r price hpr hsig
            (fun hg => absurd hg.2 (by rw [hps]; exact lt_irrefl 0))] at he
          exact hs e he
        | HOLD =>
          rw [stepV2_hold fee_pct s r price hpr hsig] at he
          exact hs e he
  refine ⟨?_, ?_⟩
  · intro fee_pct s row hsig hps
    obtain ⟨h1, h2, h3⟩ := hstep fee_pct s row hsig hps
    exact ⟨h1, h2, h3, stepV2_history fee_pct s row⟩
  · intro initial_capital fee_pct targets rows hrows
    exact hnosell fee_pct rows _ hrows (by intro e he; exact absurd he (List.not_mem_nil e))

/-- Witness for C9: a SELL of MATIC with `position_size = 0` against a live
10-share position leaves cash, positions and the log unchanged, and the
one-row run containing it produces a log with no SELL entries. -/
theorem sell_zero_size_noop_witness :
    ((stepV2 (1/1000) ⟨100, [("MATIC", ⟨10, 3⟩)], [], []⟩
        ⟨0, "MATIC", Signal.SELL, 0, fun _ => some 2⟩).cash = 100) ∧
    ((stepV2 (1/1000) ⟨100, [("MATIC", ⟨10, 3⟩)], [], []⟩
        ⟨0, "MATIC", Signal.SELL, 0, fun _ => some 2⟩).positions = [("MATIC", ⟨10, 3⟩)]) ∧
    (∀ e ∈ (run_backtest_v2 10000 (1/1000) ["MATIC"]
        [⟨0, "MATIC", Signal.SELL, 0, fun _ => some 2⟩]).trade_log,
      e.type ≠ Signal.SELL) := by
  refine ⟨?_, ?_, ?_⟩
  · exact (sell_zero_size_noop.1 (1/1000) ⟨100, [("MATIC", ⟨10, 3⟩)], [], []⟩
      ⟨0, "MATIC", Signal.SELL, 0, fun _ => some 2⟩ rfl rfl).1
  · exact (sell_zero_size_noop.1 (1/1000) ⟨100, [("MATIC", ⟨10, 3⟩)], [], []⟩
      ⟨0, "MATIC", Signal.SELL, 0, fun _ => some 2⟩ rfl rfl).2.1
  · exact sell_zero_size_noop.2 10000 (1/1000) ["MATIC"]
      [⟨0, "MATIC", Signal.SELL, 0, fun _ => some 2⟩]
      (by intro row hm hsig
          rw [List.mem_singleton] at hm
          rw [hm])

lemma holdings_foldl_acc (prices : String → Option ℚ) :
    ∀ (ps : List (String × Position)) (acc : ℚ), (∀ kv ∈ ps, kv.2.shares = 0) →
      ps.foldl (fun acc kv =>
        match prices kv.1 with
        | some p => acc + kv.2.shares * p
        | none => acc) acc = acc := by
  intro ps
  induction ps with
  | nil => intro acc _; rfl
  | cons kv tl ih =>
    intro acc h
    rw [List.foldl_cons]
    have h0 : kv.2.shares = 0 := h kv (List.mem_cons_self kv tl)
    have hstep : (match prices kv.1 with
        | some p => acc + kv.2.shares * p
        | none => acc) = acc := by
      cases prices kv.1 with
      | none => rfl
      | some p =>
        show acc + kv.2.shares * p = acc
        rw [h0, zero_mul, add_zero]
    rw [hstep]
    exact ih acc (fun kv hm => h kv (List.mem_cons_of_mem _ hm))

/-- A positions dict whose entries all hold zero shares marks to zero. -/
lemma holdings_value_zero (ps : List (String × Position)) (prices : String → Option ℚ)
    (h : ∀ kv ∈ ps, kv.2.shares = 0) : holdings_value ps prices = 0 :=
  holdings_foldl_acc prices ps 0 h

/-- Core conservation induction: a run whose final trade log equals the initial
one (so no trade branch ever executed) keeps cash and positions frozen and
appends the constant cash value once per row, provided all positions start at
zero shares. -/
lemma runV2_conserve (fee_pct : ℚ) :
    ∀ (rows : List SimRow) (s : StateV2),
      (∀ kv ∈ s.positions, kv.2.shares = 0) →
      (rows.foldl (stepV2 fee_pct) s).trade_log = s.trade_log →
      (rows.foldl (stepV2 fee_pct) s).cash = s.cash ∧
      (rows.foldl (stepV2 fee_pct) s).positions = s.positions ∧
      (rows.foldl (stepV2 fee_pct) s).portfolio_history =
        s.portfolio_history ++ List.replicate rows.length s.cash := by
  intro rows
  induction rows with
  | nil =>
    intro s _ _
    exact ⟨rfl, rfl, by simp⟩
  | cons r tl ih =>
    intro s hz hlog
    rw [List.foldl_cons] at hlog ⊢
    have hsteplog : (stepV2 fee_pct s r).trade_log = s.trade_log := by
      obtain ⟨t1, ht1⟩ := stepV2_log_extend fee_pct s r
      obtain ⟨t2, ht2⟩ := runV2_log_extend fee_pct tl (stepV2 fee_pct s r)
      rw [ht2, ht1, List.append_assoc] at hlog
      have hlen := congrArg List.length hlog
      simp only [List.length_append] at hlen
      have ht1nil : t1 = [] := List.eq_nil_of_length_eq_zero (by omega)
      rw [ht1, ht1nil, List.append_nil]
    obtain ⟨hcash, hpos⟩ := stepV2_log_eq_noop fee_pct s r hsteplog
    have hmark : mark_value s r.prices = s.cash := by
      unfold mark_value
      rw [holdings_value_zero s.positions r.prices hz, add_zero]
    have hz' : ∀ kv ∈ (stepV2 fee_pct s r).positions, kv.2.shares = 0 := by
      rw [hpos]; exact hz
    have hlog' : (tl.foldl (stepV2 fee_pct) (stepV2 fee_pct s r)).trade_log =
        (stepV2 fee_pct s r).trade_log := by
      rw [hsteplog]; exact hlog
    obtain ⟨ih1, ih2, ih3⟩ := ih (stepV2 fee_pct s r) hz' hlog'
    refine ⟨by rw [ih1, hcash], by rw [ih2, hpos], ?_⟩
    rw [ih3, stepV2_history fee_pct s r, hmark, hcash]
    simp [List.replicate_succ]

lemma getLastD_replicate_aux (c : ℚ) :
    ∀ (n : ℕ) (d : ℚ), (List.replicate (n + 1) c).getLastD d = c := by
  intro n
  induction n with
  | zero => intro d; rfl
  | succ m ih =>
    intro d
    rw [List.replicate_succ, List.getLastD_cons]
    exact ih c

lemma getLastD_replicate (c : ℚ) (n : ℕ) (h : n ≠ 0) :
    (List.replicate n c).getLastD 0 = c := by
  cases n with
  | zero => exact absurd rfl h
  | succ m => exact getLastD_replicate_aux c m 0

/-- C8: a run in which no trade executes (its trade log stays empty) conserves
capital: final cash equals the initial capital, every portfolio-history value
equals the initial capital, positions stay at their initial zero state, and
the final portfolio value equals the initial capital. -/
theorem zero_trades_conservation (initial_capital fee_pct : ℚ) (targets : List String)
    (rows : List SimRow)
    (h : (run_backtest_v2 initial_capital fee_pct targets rows).trade_log = []) :
    (run_backtest_v2 initial_capital fee_pct targets rows).cash = initial_capital ∧
    (run_backtest_v2 initial_capital fee_pct targets rows).positions =
      init_positions targets ∧
    (run_backtest_v2 initial_capital fee_pct targets rows).portfolio_history =
      List.replicate rows.length initial_capital ∧
    (rows ≠ [] →
      final_value (run_backtest_v2 initial_capital fee_pct targets rows).portfolio_history =
        initial_capital) := by
  have hz : ∀ kv ∈ init_positions targets, kv.2.shares = 0 := by
    intro kv hm
    simp only [init_positions, List.mem_map] at hm
    obtain ⟨t, _, ht⟩ := hm
    rw [← ht]
  obtain ⟨h1, h2, h3⟩ := runV2_conserve fee_pct rows
    ⟨initial_capital, init_positions targets, [], []⟩ hz h
  refine ⟨h1, h2, ?_, ?_⟩
  · show (rows.foldl (stepV2 fee_pct) ⟨initial_capital, init_positions targets, [], []⟩
      ).portfolio_history = List.replicate rows.length initial_capital
    rw [h3]
    exact List.nil_append _
  · intro hne
    show final_value (rows.foldl (stepV2 fee_pct)
      ⟨initial_capital, init_positions targets, [], []⟩).portfolio_history = initial_capital
    rw [h3, List.nil_append]
    unfold final_value
    exact getLastD_replicate initial_capital rows.length
      (by intro h0; exact hne (List.eq_nil_of_length_eq_zero h0))

/-- Witness for C8: a two-row HOLD-only run from capital 10000 ends with cash
10000 and history `[10000, 10000]`. -/
theorem zero_trades_conservation_witness :
    (run_backtest_v2 10000 (1/1000) ["MATIC"]
      [⟨0, "MATIC", Signal.HOLD, 0, fun _ => some 2⟩,
       ⟨1, "MATIC", Signal.HOLD, 0, fun _ => some 3⟩]).cash = 10000 ∧
    (run_backtest_v2 10000 (1/1000) ["MATIC"]
      [⟨0, "MATIC", Signal.HOLD, 0, fun _ => some 2⟩,
       ⟨1, "MATIC", Signal.HOLD, 0, fun _ => some 3⟩]).portfolio_history =
      List.replicate 2 10000 := by
  have h := zero_trades_conservation 10000 (1/1000) ["MATIC"]
    [⟨0, "MATIC", Signal.HOLD, 0, fun _ => some 2⟩,
     ⟨1, "MATIC", Signal.HOLD, 0, fun _ => some 3⟩] rfl
  exact ⟨h.1, h.2.2.1⟩

/-- C4 counterexample: two signal rows sharing timestamp 0 — a BUY of "A" with
position_size 0.5 at price 1 and a HOLD row for "B" — produce TWO
portfolio-history values `[10000, 9995]` for ONE distinct timestamp, and the
second value 9995 reflects the same-timestamp BUY (fee included), not the
state left by the previous timestamp, whose mark was 10000. -/
theorem history_per_timestamp_counterexample :
    ((run_backtest_v2 10000 (1/1000) ["A", "B"]
      [⟨0, "A", Signal.BUY, 1/2,
         fun s => if s = "A" then some 1 else if s = "B" then some 1 else none⟩,
       ⟨0, "B", Signal.HOLD, 0,
         fun s => if s = "A" then some 1 else if s = "B" then some 1 else none⟩]
     ).portfolio_history = [10000, 9995]) ∧
    (([(⟨0, "A", Signal.BUY, 1/2,
         fun s => if s = "A" then some 1 else if s = "B" then some 1 else none⟩ : SimRow),
       ⟨0, "B", Signal.HOLD, 0,
         fun s => if s = "A" then some 1 else if s = "B" then some 1 else none⟩].map
        SimRow.timestamp).dedup = [0]) ∧
    ((2 : ℕ) ≠ 1) ∧ ((9995 : ℚ) ≠ 10000) := by
  refine ⟨?_, by decide, by norm_num, by norm_num⟩
  norm_num [run_backtest_v2, stepV2, execBuy, mark_value, holdings_value, getPos, setPos,
    init_positions, epsShares, List.foldl]
  simp
  norm_num

/-- The v2 run appends exactly one history value per processed row. -/
lemma runV2_history_length (fee_pct : ℚ) :
    ∀ (rows : List SimRow) (s : StateV2),
      (rows.foldl (stepV2 fee_pct) s).portfolio_history.length =
        s.portfolio_history.length + rows.length := by
  intro rows
  induction rows with
  | nil => intro s; rfl
  | cons r tl ih =>
    intro s
    rw [List.foldl_cons, ih (stepV2 fee_pct s r), stepV2_history fee_pct s r]
    simp
    omega

/-- C4 amended: the v2 simulator appends exactly one portfolio value per
signal-event ROW (not per distinct timestamp — several rows may share a
timestamp), in row order; the value appended for a row is
`cash + Σ shares_i × close_i` computed from the state reached after the
preceding rows — i.e. before that row's own trade, but after trades of
earlier rows at the same timestamp — with unavailable prices contributing 0
(which is what `mark_value` of the state folds to). -/
theorem history_per_row :
    (∀ (initial_capital fee_pct : ℚ) (targets : List String) (rows : List SimRow),
      (run_backtest_v2 initial_capital fee_pct targets rows).portfolio_history.length =
        rows.length) ∧
    (∀ (initial_capital fee_pct : ℚ) (targets : List String) (rows : List SimRow) (r : SimRow),
      (run_backtest_v2 initial_capital fee_pct targets (rows ++ [r])).portfolio_history =
        (run_backtest_v2 initial_capital fee_pct targets rows).portfolio_history ++
          [mark_value (run_backtest_v2 initial_capital fee_pct targets rows) r.prices]) := by
  constructor
  · intro initial_capital fee_pct targets rows
    show (rows.foldl (stepV2 fee_pct)
      ⟨initial_capital, init_positions targets, [], []⟩).portfolio_history.length = rows.length
    rw [runV2_history_length fee_pct rows]
    simp
  · intro initial_capital fee_pct targets rows r
    show ((rows ++ [r]).foldl (stepV2 fee_pct)
        ⟨initial_capital, init_positions targets, [], []⟩).portfolio_history = _
    rw [List.foldl_append, List.foldl_cons, List.foldl_nil]
    exact stepV2_history fee_pct _ r

/-- C10 counterexample: on the stream `BUY A (size 1/2, price 1)` then
`SELL A (size 0, price 1)`, the v1 simulator liquidates the whole position
(final cash `9990.005`) while the v2 simulator skips the SELL because of its
`position_size > 0` gate (final cash `5000`), so the two versions do not
produce the same final cash. -/
theorem v1_v2_equivalence_counterexample :
    ((run_backtest_v1 10000 (1/1000) ["A"]
      [⟨0, "A", Signal.BUY, 1/2, fun s => if s = "A" then some 1 else none⟩,
       ⟨1, "A", Signal.SELL, 0, fun s => if s = "A" then some 1 else none⟩]).cash =
      1998001/200) ∧
    ((run_backtest_v2 10000 (1/1000) ["A"]
      [⟨0, "A", Signal.BUY, 1/2, fun s => if s = "A" then some 1 else none⟩,
       ⟨1, "A", Signal.SELL, 0, fun s => if s = "A" then some 1 else none⟩]).cash =
      5000) ∧
    ((1998001/200 : ℚ) ≠ 5000) := by
  refine ⟨?_, ?_, by norm_num⟩ <;>
    norm_num [run_backtest_v1, run_backtest_v2, stepV1, stepV2, execBuy, mark_value,
      holdings_value, getPos, setPos, init_positions, epsShares, List.foldl]

/-- On a row whose SELL events (if any) carry `position_size = 1`, one v1 step
agrees with one v2 step on cash, positions and history. -/
lemma stepV1_eq_stepV2 (fee_pct : ℚ) (s2 : StateV2) (row : SimRow)
    (hrow : row.signal = Signal.SELL → row.position_size = 1) :
    stepV1 fee_pct ⟨s2.cash, s2.positions, s2.portfolio_history⟩ row =
      ⟨(stepV2 fee_pct s2 row).cash, (stepV2 fee_pct s2 row).positions,
       (stepV2 fee_pct s2 row).portfolio_history⟩ := by
  cases hpr : row.prices row.symbol with
  | none =>
    rw [stepV2_none fee_pct s2 row hpr,
      stepV1_none fee_pct ⟨s2.cash, s2.positions, s2.portfolio_history⟩ row hpr]
    rfl
  | some price =>
    cases hsig : row.signal with
    | BUY =>
      by_cases hg : 1 < s2.cash ∧ 0 < row.position_size
      · rw [stepV2_buy fee_pct s2 row price hpr hsig hg.1 hg.2,
          stepV1_buy fee_pct ⟨s2.cash, s2.positions, s2.portfolio_history⟩ row price hpr hsig
            hg.1 hg.2]
        rfl
      · rw [stepV2_buy_fail fee_pct s2 row price hpr hsig hg,
          stepV1_buy_fail fee_pct ⟨s2.cash, s2.positions, s2.portfolio_history⟩ row price hpr
            hsig hg]
        rfl
    | SELL =>
      have hps : row.position_size = 1 := hrow hsig
      by_cases hsh : 0 < (getPos s2.positions row.symbol).shares
      · rw [stepV2_sell fee_pct s2 row price hpr hsig hsh (by rw [hps]; norm_num),
          stepV1_sell fee_pct ⟨s2.cash, s2.positions, s2.portfolio_history⟩ row price hpr hsig
            hsh]
        rw [hps]
        rw [mul_one, sub_self, if_pos (by norm_num [epsShares])]
        rfl
      · rw [stepV2_sell_fail fee_pct s2 row price hpr hsig (fun hg => hsh hg.1),
          stepV1_sell_fail fee_pct ⟨s2.cash, s2.positions, s2.portfolio_history⟩ row price hpr
            hsig hsh]
        rfl
    | HOLD =>
      rw [stepV2_hold fee_pct s2 row price hpr hsig,
        stepV1_hold fee_pct ⟨s2.cash, s2.positions, s2.portfolio_history⟩ row price hpr hsig]
      rfl

lemma foldV1_eq_foldV2 (fee_pct : ℚ) :
    ∀ (rows : List SimRow) (s2 : StateV2),
      (∀ row ∈ rows, row.signal = Signal.SELL → row.position_size = 1) →
      rows.foldl (stepV1 fee_pct) ⟨s2.cash, s2.positions, s2.portfolio_history⟩ =
        ⟨(rows.foldl (stepV2 fee_pct) s2).cash, (rows.foldl (stepV2 fee_pct) s2).positions,
         (rows.foldl (stepV2 fee_pct) s2).portfolio_history⟩ := by
  intro rows
  induction rows with
  | nil => intro s2 _; rfl
  | cons r tl ih =>
    intro s2 h
    rw [List.foldl_cons, List.foldl_cons,
      stepV1_eq_stepV2 fee_pct s2 r (h r (List.mem_cons_self r tl))]
    exact ih (stepV2 fee_pct s2 r) (fun row hm => h row (List.mem_cons_of_mem r hm))

/-- C10 amended: the two simulator versions produce the same portfolio history
and the same final cash (and positions) on every signal stream in which each
SELL event carries `position_size = 1` — full liquidation, where the v2
fractional SELL coincides with the v1 whole-position SELL.  (The
unconditional claim is false: `v1_v2_equivalence_counterexample`.) -/
theorem v1_v2_agree_full_liquidation (initial_capital fee_pct : ℚ) (targets : List String)
    (rows : List SimRow)
    (h : ∀ row ∈ rows, row.signal = Signal.SELL → row.position_size = 1) :
    (run_backtest_v1 initial_capital fee_pct targets rows).cash =
      (run_backtest_v2 initial_capital fee_pct targets rows).cash ∧
    (run_backtest_v1 initial_capital fee_pct targets rows).positions =
      (run_backtest_v2 initial_capital fee_pct targets rows).positions ∧
    (run_backtest_v1 initial_capital fee_pct targets rows).portfolio_history =
      (run_backtest_v2 initial_capital fee_pct targets rows).portfolio_history := by
  have h1 : run_backtest_v1 initial_capital fee_pct targets rows =
      ⟨(run_backtest_v2 initial_capital fee_pct targets rows).cash,
       (run_backtest_v2 initial_capital fee_pct targets rows).positions,
       (run_backtest_v2 initial_capital fee_pct targets rows).portfolio_history⟩ :=
    foldV1_eq_foldV2 fee_pct rows ⟨initial_capital, init_positions targets, [], []⟩ h
  exact ⟨congrArg StateV1.cash h1, congrArg StateV1.positions h1,
    congrArg StateV1.portfolio_history h1⟩

/-- Witness for C10: the BUY-then-full-SELL stream satisfies the premise, and
the two simulators agree on the resulting cash and history. -/
theorem v1_v2_agree_full_liquidation_witness :
    (run_backtest_v1 10000 (1/1000) ["A"]
      [⟨0, "A", Signal.BUY, 1/2, fun s => if s = "A" then some 1 else none⟩,
       ⟨1, "A", Signal.SELL, 1, fun s => if s = "A" then some 1 else none⟩]).cash =
    (run_backtest_v2 10000 (1/1000) ["A"]
      [⟨0, "A", Signal.BUY, 1/2, fun s => if s = "A" then some 1 else none⟩,
       ⟨1, "A", Signal.SELL, 1, fun s => if s = "A" then some 1 else none⟩]).cash ∧
    (run_backtest_v1 10000 (1/1000) ["A"]
      [⟨0, "A", Signal.BUY, 1/2, fun s => if s = "A" then some 1 else none⟩,
       ⟨1, "A", Signal.SELL, 1, fun s => if s = "A" then some 1 else none⟩]).portfolio_history =
    (run_backtest_v2 10000 (1/1000) ["A"]
      [⟨0, "A", Signal.BUY, 1/2, fun s => if s = "A" then some 1 else none⟩,
       ⟨1, "A", Signal.SELL, 1, fun s => if s = "A" then some 1 else none⟩]).portfolio_history := by
  have h := v1_v2_agree_full_liquidation 10000 (1/1000) ["A"]
    [⟨0, "A", Signal.BUY, 1/2, fun s => if s = "A" then some 1 else none⟩,
     ⟨1, "A", Signal.SELL, 1, fun s => if s = "A" then some 1 else none⟩]
    (by intro row hm hsig
        simp only [List.mem_cons, List.mem_singleton, List.not_mem_nil, or_false] at hm
        rcases hm with rfl | rfl
        · exact absurd hsig (by decide)
        · rfl)
  exact ⟨h.1, h.2.2⟩

lemma sample_var_nonneg (l : List ℚ) : 0 ≤ sample_var l := by
  unfold sample_var
  split
  · exact le_refl 0
  · rename_i hlen
    apply div_nonneg
    · apply List.sum_nonneg
      intro x hx
      rw [List.mem_map] at hx
      obtain ⟨y, _, rfl⟩ := hx
      exact sq_nonneg _
    · have : 2 ≤ l.length := by omega
      have : (2 : ℚ) ≤ (l.length : ℚ) := by exact_mod_cast this
      linarith

lemma stdQ_pos_iff (l : List ℚ) : 0 < stdQ l ↔ 0 < sample_var l := by
  unfold stdQ
  rw [Real.sqrt_pos]
  exact_mod_cast Iff.rfl

lemma stdQ_zero_of_var_zero (l : List ℚ) (h : sample_var l = 0) : stdQ l = 0 := by
  unfold stdQ
  rw [h]
  simp

lemma returnsOf_zip_replicate (c : ℚ) (hc : c ≠ 0) :
    ∀ m, List.zipWith (fun prev cur => cur / prev - 1)
      (c :: List.replicate m c) (List.replicate m c) = List.replicate m 0 := by
  intro m
  induction m with
  | zero => rfl
  | succ k ih =>
    rw [List.replicate_succ, List.zipWith_cons_cons, div_self hc, sub_self]
    show 0 :: List.zipWith _ (c :: List.replicate k c) (List.replicate k c) =
      List.replicate (k + 1) 0
    rw [ih, List.replicate_succ]

lemma returnsOf_replicate (c : ℚ) (hc : c ≠ 0) :
    ∀ n, returnsOf (List.replicate n c) = List.replicate n 0 := by
  intro n
  cases n with
  | zero => rfl
  | succ m =>
    rw [List.replicate_succ]
    show 0 :: List.zipWith (fun prev cur => cur / prev - 1)
      (c :: List.replicate m c) (List.replicate m c) = List.replicate (m + 1) 0
    rw [returnsOf_zip_replicate c hc m, List.replicate_succ]

lemma sample_var_replicate_zero (n : ℕ) : sample_var (List.replicate n 0) = 0 := by
  unfold sample_var
  split
  · rfl
  · simp [meanQ]

/-- C6: `sharpe_ratio` equals `(mean returns / stdev returns) × √8760` whenever
the standard deviation of the return series is positive, equals 0 whenever the
standard deviation is 0 — in particular on every constant-value history and on
every single-point history — and the standard deviation is never negative, so
these two cases are exhaustive and the division is only ever performed with a
positive divisor. -/
theorem sharpe_ratio_spec :
    (∀ h : List ℚ, stdQ (returnsOf h) = 0 → sharpe_ratio h = 0) ∧
    (∀ h : List ℚ, 0 < stdQ (returnsOf h) →
      sharpe_ratio h =
        ((meanQ (returnsOf h) : ℝ) / stdQ (returnsOf h)) * Real.sqrt (365 * 24)) ∧
    (∀ h : List ℚ, stdQ (returnsOf h) = 0 ∨ 0 < stdQ (returnsOf h)) ∧
    (∀ c : ℚ, c ≠ 0 → ∀ n, sharpe_ratio (List.replicate n c) = 0) ∧
    (∀ c : ℚ, sharpe_ratio [c] = 0) := by
  have p1 : ∀ h : List ℚ, stdQ (returnsOf h) = 0 → sharpe_ratio h = 0 := by
    intro h h0
    unfold sharpe_ratio
    rw [if_neg (by rw [h0]; exact lt_irrefl 0)]
  have p2 : ∀ h : List ℚ, 0 < stdQ (returnsOf h) →
      sharpe_ratio h =
        ((meanQ (returnsOf h) : ℝ) / stdQ (returnsOf h)) * Real.sqrt (365 * 24) := by
    intro h hpos
    unfold sharpe_ratio
    rw [if_pos hpos]
  have p3 : ∀ h : List ℚ, stdQ (returnsOf h) = 0 ∨ 0 < stdQ (returnsOf h) := by
    intro h
    rcases eq_or_lt_of_le (Real.sqrt_nonneg ((sample_var (returnsOf h) : ℚ) : ℝ)) with he | hl
    · exact Or.inl he.symm
    · exact Or.inr hl
  have p4 : ∀ c : ℚ, c ≠ 0 → ∀ n, sharpe_ratio (List.replicate n c) = 0 := by
    intro c hc n
    apply p1
    rw [returnsOf_replicate c hc n]
    exact stdQ_zero_of_var_zero _ (sample_var_replicate_zero n)
  have p5 : ∀ c : ℚ, sharpe_ratio [c] = 0 := by
    intro c
    apply p1
    show stdQ [0] = 0
    exact stdQ_zero_of_var_zero _ (sample_var_replicate_zero 1)
  exact ⟨p1, p2, p3, p4, p5⟩

/-- Witness for C6: the single-point history `[5]` and the constant history
`[1, 1, 1]` give Sharpe 0, and the strictly increasing history `[1, 2]`, whose
return series has positive standard deviation, takes the annualized-ratio
branch. -/
theorem sharpe_ratio_spec_witness :
    sharpe_ratio [5] = 0 ∧
    sharpe_ratio (List.replicate 3 1) = 0 ∧
    sharpe_ratio [1, 2] =
      ((meanQ (returnsOf [1, 2]) : ℝ) / stdQ (returnsOf [1, 2])) * Real.sqrt (365 * 24) := by
  have hvar : sample_var (returnsOf [1, 2]) = 1/2 := by
    show sample_var [0, 2/1 - 1] = 1/2
    norm_num [sample_var, meanQ]
  refine ⟨?_, ?_, ?_⟩
  · exact sharpe_ratio_spec.1 [5]
      (by
        show stdQ [0] = 0
        exact stdQ_zero_of_var_zero _ (sample_var_replicate_zero 1))
  · exact sharpe_ratio_spec.2.2.2.1 1 (by norm_num) 3
  · exact sharpe_ratio_spec.2.1 [1, 2]
      (by
        rw [stdQ_pos_iff, hvar]
        norm_num)

lemma returns_factor_pos_zip :
    ∀ (vs : List ℚ) (v : ℚ), (∀ a ∈ v :: vs, 0 < a) →
      ∀ x ∈ List.zipWith (fun prev cur => cur / prev - 1) (v :: vs) vs, 0 < 1 + x := by
  intro vs
  induction vs with
  | nil => intro v _ x hx; exact absurd hx (List.not_mem_nil x)
  | cons w ws ih =>
    intro v hall x hx
    rw [List.zipWith_cons_cons, List.mem_cons] at hx
    rcases hx with rfl | hx
    · have hv : 0 < v := hall v (List.mem_cons_self _ _)
      have hw : 0 < w := hall w (List.mem_cons_of_mem _ (List.mem_cons_self _ _))
      have : 1 + (w / v - 1) = w / v := by ring
      rw [this]
      exact div_pos hw hv
    · exact ih w (fun a ha => hall a (List.mem_cons_of_mem _ ha)) x hx

lemma returns_nonneg_zip :
    ∀ (vs : List ℚ) (v : ℚ), (∀ a ∈ v :: vs, 0 < a) → List.Chain' (· ≤ ·) (v :: vs) →
      ∀ x ∈ List.zipWith (fun prev cur => cur / prev - 1) (v :: vs) vs, 0 ≤ x := by
  intro vs
  induction vs with
  | nil => intro v _ _ x hx; exact absurd hx (List.not_mem_nil x)
  | cons w ws ih =>
    intro v hall hchain x hx
    rw [List.zipWith_cons_cons, List.mem_cons] at hx
    rw [List.chain'_cons] at hchain
    rcases hx with rfl | hx
    · have hv : 0 < v := hall v (List.mem_cons_self _ _)
      have hvw : v ≤ w := hchain.1
      rw [sub_nonneg]
      exact (one_le_div hv).mpr hvw
    · exact ih w (fun a ha => hall a (List.mem_cons_of_mem _ ha)) hchain.2 x hx

lemma drawdown_zip_bounds :
    ∀ (l : List ℚ) (acc m : ℚ), 0 < acc → 0 < m → (∀ x ∈ l, 0 < 1 + x) →
      ∀ d ∈ List.zipWith (fun cu pk => cu / pk - 1) (cumProdAux acc l)
          (runMaxAux m (cumProdAux acc l)), -1 < d ∧ d ≤ 0 := by
  intro l
  induction l with
  | nil => intro acc m _ _ _ d hd; exact absurd hd (List.not_mem_nil d)
  | cons x xs ih =>
    intro acc m hacc hm hf d hd
    have hc : 0 < acc * (1 + x) := mul_pos hacc (hf x (List.mem_cons_self _ _))
    rw [show cumProdAux acc (x :: xs) = (acc * (1 + x)) :: cumProdAux (acc * (1 + x)) xs
        from rfl] at hd
    rw [show runMaxAux m ((acc * (1 + x)) :: cumProdAux (acc * (1 + x)) xs) =
        max m (acc * (1 + x)) ::
          runMaxAux (max m (acc * (1 + x))) (cumProdAux (acc * (1 + x)) xs) from rfl] at hd
    rw [List.zipWith_cons_cons, List.mem_cons] at hd
    have hmax : 0 < max m (acc * (1 + x)) := lt_of_lt_of_le hm (le_max_left _ _)
    rcases hd with rfl | hd
    · constructor
      · have : 0 < acc * (1 + x) / max m (acc * (1 + x)) := div_pos hc hmax
        linarith
      · rw [sub_nonpos]
        exact (div_le_one hmax).mpr (le_max_right _ _)
    · exact ih (acc * (1 + x)) (max m (acc * (1 + x))) hc hmax
        (fun y hy => hf y (List.mem_cons_of_mem _ hy)) d hd

lemma drawdown_zip_zero :
    ∀ (l : List ℚ) (acc m : ℚ), 0 < acc → m ≤ acc → (∀ x ∈ l, 0 ≤ x) →
      ∀ d ∈ List.zipWith (fun cu pk => cu / pk - 1) (cumProdAux acc l)
          (runMaxAux m (cumProdAux acc l)), d = 0 := by
  intro l
  induction l with
  | nil => intro acc m _ _ _ d hd; exact absurd hd (List.not_mem_nil d)
  | cons x xs ih =>
    intro acc m hacc hma hnn d hd
    have hx : 0 ≤ x := hnn x (List.mem_cons_self _ _)
    have hc : 0 < acc * (1 + x) := mul_pos hacc (by linarith)
    have hmc : m ≤ acc * (1 + x) :=
      le_trans hma (le_mul_of_one_le_right hacc.le (by linarith))
    have hmax : max m (acc * (1 + x)) = acc * (1 + x) := max_eq_right hmc
    rw [show cumProdAux acc (x :: xs) = (acc * (1 + x)) :: cumProdAux (acc * (1 + x)) xs
        from rfl] at hd
    rw [show runMaxAux m ((acc * (1 + x)) :: cumProdAux (acc * (1 + x)) xs) =
        max m (acc * (1 + x)) ::
          runMaxAux (max m (acc * (1 + x))) (cumProdAux (acc * (1 + x)) xs) from rfl] at hd
    rw [hmax] at hd
    rw [List.zipWith_cons_cons, List.mem_cons] at hd
    rcases hd with rfl | hd
    · rw [div_self (ne_of_gt hc), sub_self]
    · exact ih (acc * (1 + x)) (acc * (1 + x)) hc (le_refl _)
        (fun y hy => hnn y (List.mem_cons_of_mem _ hy)) d hd

lemma minQ_foldl_bounds :
    ∀ (xs : List ℚ) (acc : ℚ), -1 < acc ∧ acc ≤ 0 → (∀ d ∈ xs, -1 < d ∧ d ≤ 0) →
      -1 < xs.foldl min acc ∧ xs.foldl min acc ≤ 0 := by
  intro xs
  induction xs with
  | nil => intro acc ha _; exact ha
  | cons y ys ih =>
    intro acc ha hall
    rw [List.foldl_cons]
    have hy := hall y (List.mem_cons_self _ _)
    exact ih (min acc y) ⟨lt_min ha.1 hy.1, le_trans (min_le_left _ _) ha.2⟩
      (fun d hd => hall d (List.mem_cons_of_mem _ hd))

lemma minQ_bounds (l : List ℚ) (hl : ∀ d ∈ l, -1 < d ∧ d ≤ 0) :
    -1 < minQ l ∧ minQ l ≤ 0 := by
  cases l with
  | nil => exact ⟨by norm_num [minQ], le_refl 0⟩
  | cons x xs =>
    exact minQ_foldl_bounds xs x (hl x (List.mem_cons_self _ _))
      (fun d hd => hl d (List.mem_cons_of_mem _ hd))

lemma minQ_foldl_zero :
    ∀ (xs : List ℚ) (acc : ℚ), acc = 0 → (∀ d ∈ xs, d = 0) → xs.foldl min acc = 0 := by
  intro xs
  induction xs with
  | nil => intro acc ha _; exact ha
  | cons y ys ih =>
    intro acc ha hall
    rw [List.foldl_cons]
    refine ih (min acc y) ?_ (fun d hd => hall d (List.mem_cons_of_mem _ hd))
    rw [ha, hall y (List.mem_cons_self _ _)]
    exact min_self 0

lemma minQ_zero (l : List ℚ) (hl : ∀ d ∈ l, d = 0) : minQ l = 0 := by
  cases l with
  | nil => rfl
  | cons x xs =>
    exact minQ_foldl_zero xs x (hl x (List.mem_cons_self _ _))
      (fun d hd => hl d (List.mem_cons_of_mem _ hd))

/-- C7: for every portfolio history with positive values, `max_drawdown_pct`
lies in `[0, 100]`, and it equals 0 whenever the history is non-decreasing. -/
theorem max_drawdown_bounds (h : List ℚ) (hpos : ∀ v ∈ h, 0 < v) :
    0 ≤ max_drawdown_pct h ∧ max_drawdown_pct h ≤ 100 ∧
    (List.Chain' (· ≤ ·) h → max_drawdown_pct h = 0) := by
  refine ⟨abs_nonneg _, ?_, ?_⟩
  · cases h with
    | nil =>
      show |minQ (drawdownOf []) * 100| ≤ 100
      norm_num [drawdownOf, returnsOf, cumulative_returns, cumProdAux, peakOf, minQ]
    | cons v vs =>
      have hf : ∀ x ∈ (0 : ℚ) :: List.zipWith (fun prev cur => cur / prev - 1) (v :: vs) vs,
          0 < 1 + x := by
        intro x hx
        rw [List.mem_cons] at hx
        rcases hx with rfl | hx
        · norm_num
        · exact returns_factor_pos_zip vs v hpos x hx
      have hdd := drawdown_zip_bounds
        ((0 : ℚ) :: List.zipWith (fun prev cur => cur / prev - 1) (v :: vs) vs)
        1 (1 * (1 + 0)) (by norm_num) (by norm_num) hf
      have hmn := minQ_bounds (drawdownOf (v :: vs)) hdd
      show |minQ (drawdownOf (v :: vs)) * 100| ≤ 100
      rw [abs_of_nonpos (mul_nonpos_of_nonpos_of_nonneg hmn.2 (by norm_num))]
      nlinarith [hmn.1]
  · intro hchain
    cases h with
    | nil =>
      show |minQ (drawdownOf []) * 100| = 0
      norm_num [drawdownOf, returnsOf, cumulative_returns, cumProdAux, peakOf, minQ]
    | cons v vs =>
      have hnn : ∀ x ∈ (0 : ℚ) :: List.zipWith (fun prev cur => cur / prev - 1) (v :: vs) vs,
          0 ≤ x := by
        intro x hx
        rw [List.mem_cons] at hx
        rcases hx with rfl | hx
        · exact le_refl 0
        · exact returns_nonneg_zip vs v hpos hchain x hx
      have hdd := drawdown_zip_zero
        ((0 : ℚ) :: List.zipWith (fun prev cur => cur / prev - 1) (v :: vs) vs)
        1 (1 * (1 + 0)) (by norm_num) (by norm_num) hnn
      have hmn := minQ_zero (drawdownOf (v :: vs)) hdd
      show |minQ (drawdownOf (v :: vs)) * 100| = 0
      rw [hmn]
      norm_num

/-- Witness for C7: the histories `[10000, 9000, 9500]` (a 10% dip) and the
non-decreasing `[100, 150, 150]` are positive; the theorem bounds the first
history's drawdown inside `[0, 100]` and makes the second's exactly 0. -/
theorem max_drawdown_bounds_witness :
    (0 ≤ max_drawdown_pct [10000, 9000, 9500] ∧
      max_drawdown_pct [10000, 9000, 9500] ≤ 100) ∧
    max_drawdown_pct [100, 150, 150] = 0 := by
  have h1 := max_drawdown_bounds [10000, 9000, 9500]
    (by intro v hv
        rw [List.mem_cons, List.mem_cons, List.mem_singleton] at hv
        rcases hv with rfl | rfl | rfl <;> norm_num)
  have h2 := max_drawdown_bounds [100, 150, 150]
    (by intro v hv
        rw [List.mem_cons, List.mem_cons, List.mem_singleton] at hv
        rcases hv with rfl | rfl | rfl <;> norm_num)
  exact ⟨⟨h1.1, h1.2.1⟩, h2.2.2 (by norm_num [List.chain'_cons, List.Chain'])⟩

